import Mathlib

/-!
# streamtasks media: frame compositor and V4L2 capture session

A shallow embedding of `src/streamtasks/media/video_perf_all.cpp`
(`merge_images`) and `src/streamtasks/media/v4l2.cpp` (`VideoCapture`),
followed by the properties proved about them.

Conventions of the embedding.

* A `uint8_t` is a `Byte` (`Fin 256`); wider machine integers are natural
  numbers reduced modulo `2 ^ w` wherever the source can wrap.
* `merge_images` works through raw pointers.  The output string and the input
  images are therefore modelled as flat memory: a read at an index past the end
  of an image returns whatever byte lies there (supplied by `Surroundings`), a
  write past the end of the output string lands outside the returned buffer.
  Every access is recorded in a trace so that the indices touched by the code
  can be inspected.
* The capture device is an oracle (`Device`) whose answers may depend on the
  whole history of calls issued so far (`World`, most recent call first).
-/

namespace Streamtasks

deriving instance DecidableEq for Except

/-! ## Frame compositor (`video_perf_all.cpp`) -/

/-- A `uint8_t`. -/
abbrev Byte := Fin 256

/-- The cast `(uint8_t) n`. -/
def to_uint8 (n : Nat) : Byte := ⟨n % 256, Nat.mod_lt n (by decide)⟩

/-- The constant `#define ALPHA_PIXEL_SIZE 4`. -/
def ALPHA_PIXEL_SIZE : Nat := 4

/-- The value `std::numeric_limits<size_t>::max()` on a 64-bit target. -/
def SIZE_MAX : Nat := 2 ^ 64 - 1

/-- The largest size a Python `bytes` object can have (`PY_SSIZE_T_MAX`). -/
def PY_SSIZE_T_MAX : Nat := 2 ^ 63 - 1

/-- Failure of `merge_images`: the violated `assert(image_count > 0)`. -/
inductive MergeError where
  | EmptyFrameSet
  deriving DecidableEq, Repr

/-- The memory around the buffers `merge_images` works on: `past_image i k` is
the byte a read of `image_data[i][k]` returns when `k` is not inside image `i`,
`past_out k` the byte initially found at `out_data[k]` when `k` is not inside
`out_str`. -/
structure Surroundings where
  past_image : Nat → Nat → Byte
  past_out : Nat → Byte

/-- One memory access of `merge_images`, by byte index. -/
inductive Access where
  | read_image (i : Nat) (idx : Nat)
  | read_out (idx : Nat)
  | write_out (idx : Nat)
  deriving DecidableEq, Repr

/-- The byte index of an access, whichever buffer it goes to. -/
def Access.index : Access → Nat
  | .read_image _ idx => idx
  | .read_out idx => idx
  | .write_out idx => idx

/-- The mutable state of `merge_images`: the memory reached through `out_data`
and the accesses made so far (in order). -/
structure MergeState where
  out_data : Nat → Byte
  trace : List Access

/-- The read `image_data[i][k]`. -/
def image_at (mem : Surroundings) (i : Nat) (img : List Byte) (k : Nat) : Byte :=
  img.getD k (mem.past_image i k)

/-- Lines 13-20: `image_size`, starting at `SIZE_MAX` and lowered to the size
of every image in turn. -/
def image_size (images : List (List Byte)) : Nat :=
  images.foldl (fun sz v => min sz v.length) SIZE_MAX

/-- Line 58, one colour channel `c` of one frame:
`out_cv[c] = (uint8_t)((alpha_old * out_cv[c] + alpha * frame_cv[c]) / 255)`,
where `out_cv = &out_data[out_cv]` and `frame_cv = &image_data[i][frame_cv]`.
The operands are promoted to `int`; the sum is at most `2 * 255 * 255`, so the
`int` arithmetic is exact. -/
def channel_step (mem : Surroundings) (i : Nat) (img : List Byte)
    (out_cv frame_cv alpha alpha_old : Nat) (st : MergeState) (c : Nat) : MergeState :=
  { out_data := Function.update st.out_data (out_cv + c)
      (to_uint8 ((alpha_old * (st.out_data (out_cv + c)).val
        + alpha * (image_at mem i img (frame_cv + c)).val) / 255)),
    trace := st.trace ++
      [.read_out (out_cv + c), .read_image i (frame_cv + c), .write_out (out_cv + c)] }

/-- Lines 41-59, the body of the loop over the frames for frame `i` at pixel
`offset`.  `alpha` and `alpha_old` are `uint16_t`; `255 - alpha` is computed on
a value below 256, so the subtraction cannot go below zero. -/
def frame_step (mem : Surroundings) (alpha_front : Bool) (offset : Nat)
    (i : Nat) (img : List Byte) (st : MergeState) : MergeState :=
  let alpha_idx := if alpha_front then offset else offset + ALPHA_PIXEL_SIZE - 1
  let frame_cv := if alpha_front then offset + 1 else offset
  let out_cv := if alpha_front then offset + 1 else offset
  let alpha := (image_at mem i img alpha_idx).val % 2 ^ 16
  let alpha_old := (255 - alpha) % 2 ^ 16
  (List.range (ALPHA_PIXEL_SIZE - 1)).foldl
    (channel_step mem i img out_cv frame_cv alpha alpha_old)
    { st with trace := st.trace ++ [.read_image i alpha_idx] }

/-- Lines 39-60: `for (size_t i = 0; i < image_count; i++)`, entered at frame
`i` with the frames from `i` on still to do. -/
def frame_loop (mem : Surroundings) (alpha_front : Bool) (offset : Nat) :
    List (List Byte) → Nat → MergeState → MergeState
  | [], _, st => st
  | img :: rest, i, st =>
    frame_loop mem alpha_front offset rest (i + 1) (frame_step mem alpha_front offset i img st)

/-- Lines 27-60, the body of the loop over the pixels at `offset`: force the
alpha byte of the output pixel to 255, then blend every frame in. -/
def pixel_step (mem : Surroundings) (images : List (List Byte)) (alpha_front : Bool)
    (offset : Nat) (st : MergeState) : MergeState :=
  let alpha_idx := if alpha_front then offset else offset + ALPHA_PIXEL_SIZE - 1
  frame_loop mem alpha_front offset images 0
    { out_data := Function.update st.out_data alpha_idx 255,
      trace := st.trace ++ [.write_out alpha_idx] }

/-- Line 25: `for (size_t offset = 0; offset < image_size; offset += 4)`,
entered at `offset`.  `offset` is a `size_t`, so the increment is taken modulo
`2 ^ 64`.  The first argument bounds the number of iterations. -/
def pixel_loop (mem : Surroundings) (images : List (List Byte)) (alpha_front : Bool)
    (size : Nat) : Nat → Nat → MergeState → MergeState
  | 0, _, st => st
  | fuel + 1, offset, st =>
    if offset < size then
      pixel_loop mem images alpha_front size fuel ((offset + ALPHA_PIXEL_SIZE) % 2 ^ 64)
        (pixel_step mem images alpha_front offset st)
    else st

/-- The state in which `merge_images` leaves the memory, and the accesses it
made, for a non-empty list of images.  `out_str(image_size, 0)` is zeroed
inside its bounds.  The loop advances by 4 each round, so `image_size` rounds
are enough for it to run to its end (`pixel_loop_fuel`). -/
def merge_run (mem : Surroundings) (images : List (List Byte)) (alpha_front : Bool) :
    MergeState :=
  pixel_loop mem images alpha_front (image_size images) (image_size images) 0
    { out_data := fun k => if k < image_size images then 0 else mem.past_out k,
      trace := [] }

/-- The function `merge_images` (lines 9-64): `py::bytes(out_str)` is the first
`image_size` bytes of the memory behind `out_data`. -/
def merge_images (mem : Surroundings) (images : List (List Byte)) (alpha_front : Bool) :
    Except MergeError (List Byte) :=
  if images.length = 0 then .error .EmptyFrameSet
  else .ok ((List.range (image_size images)).map
    (merge_run mem images alpha_front).out_data)

/-- The accesses `merge_images` makes, in order. -/
def merge_accesses (mem : Surroundings) (images : List (List Byte)) (alpha_front : Bool) :
    List Access :=
  (merge_run mem images alpha_front).trace

/-- Surroundings filled with zero bytes. -/
def zero_mem : Surroundings := ⟨fun _ _ => 0, fun _ => 0⟩

/-! ## Capture session (`v4l2.cpp`) -/

/-- The constant `#define REQ_BUFFER_COUNT 2`. -/
def REQ_BUFFER_COUNT : Nat := 2

/-- The constant `#define REQ_MIN_BUFFER_COUNT REQ_BUFFER_COUNT`. -/
def REQ_MIN_BUFFER_COUNT : Nat := REQ_BUFFER_COUNT

/-- The mask `S_IFMT` of `<sys/stat.h>` (Linux). -/
def S_IFMT : Nat := 0o170000

/-- The file type `S_IFCHR` of `<sys/stat.h>` (Linux). -/
def S_IFCHR : Nat := 0o020000

/-- The test `S_ISCHR(m)` of `<sys/stat.h>`. -/
def S_ISCHR (st_mode : Nat) : Bool := st_mode &&& S_IFMT == S_IFCHR

/-- The capability bit `V4L2_CAP_VIDEO_CAPTURE` of `<linux/videodev2.h>`. -/
def V4L2_CAP_VIDEO_CAPTURE : Nat := 0x00000001

/-- The capability bit `V4L2_CAP_STREAMING` of `<linux/videodev2.h>`. -/
def V4L2_CAP_STREAMING : Nat := 0x04000000

/-- The value `V4L2_BUF_TYPE_VIDEO_CAPTURE` of `<linux/videodev2.h>`. -/
def V4L2_BUF_TYPE_VIDEO_CAPTURE : Nat := 1

/-- The fields of `struct v4l2_pix_format` the code uses; all are `__u32`. -/
structure v4l2_pix_format where
  width : Nat
  height : Nat
  pixelformat : Nat
  field : Nat
  bytesperline : Nat
  sizeimage : Nat
  deriving DecidableEq, Repr

/-- A `struct v4l2_format` whose union member in use is `fmt.pix`. -/
structure v4l2_format where
  buf_type : Nat
  pix : v4l2_pix_format
  deriving DecidableEq, Repr

/-- A `struct v4l2_streamparm` reduced to `parm.capture.timeperframe`. -/
structure v4l2_streamparm where
  buf_type : Nat
  numerator : Nat
  denominator : Nat
  deriving DecidableEq, Repr

/-- The record `struct frame_buffer`: a mapped region, by address and length. -/
structure frame_buffer where
  start : Nat
  length : Nat
  deriving DecidableEq, Repr

/-- The object `class VideoCapture`. -/
structure VideoCapture where
  fd : Int
  started : Bool
  closed : Bool
  format : v4l2_format
  params : v4l2_streamparm
  buffers : List frame_buffer
  deriving DecidableEq, Repr

/-- The `std::runtime_error`s of `v4l2.cpp`, one per throw site. -/
inductive CaptureError where
  /-- "Can not identify dev file!" -/
  | CannotIdentify
  /-- "File is not a char device!" -/
  | NotACharacterDevice
  /-- "Failed to open device!" -/
  | OpenFailed
  /-- "Device is not a V4L2 device!" -/
  | NotV4L2
  /-- "Device is not a V4L2 capture device!" -/
  | NotCapture
  /-- "Device does not support streaming!" -/
  | NoStreaming
  /-- "Failed to set format!" -/
  | SetFormatFailed
  /-- "Failed to set params!" -/
  | SetParamsFailed
  /-- "Failed to get params!" -/
  | GetParamsFailed
  /-- "Failed to request buffers!" -/
  | RequestBuffersFailed
  /-- "Insufficient buffer memory!" -/
  | InsufficientBuffers
  /-- "Failed to query buffer!" -/
  | QueryBufferFailed
  /-- "Failed to map buffer into memory!" -/
  | MappingFailed
  /-- "Failed to queue buffer!" -/
  | QueueFailed
  /-- "Failed to dequeue buffer!" -/
  | DequeueFailed
  /-- "Dequeued buffer is out of range!" -/
  | CorruptBufferIndex
  /-- "Capture already started!" -/
  | AlreadyStreaming
  /-- "Failed to start stream!" -/
  | StreamStartFailed
  /-- "Capture not started!" -/
  | NotStreaming
  /-- "Failed to stop stream!" -/
  | StreamStopFailed
  /-- "Failed to unmap buffer!" -/
  | UnmapFailed
  /-- "Failed to close device!" -/
  | CloseFailed
  deriving DecidableEq, Repr

/-- A call the session issues to the operating system or the device. -/
inductive Call where
  | stat (dev_name : String)
  | open_ (dev_name : String)
  | querycap (fd : Int)
  | s_fmt (fd : Int)
  | s_parm (fd : Int)
  | g_parm (fd : Int)
  | reqbufs (fd : Int) (count : Nat)
  | querybuf (fd : Int) (index : Nat)
  | mmap (length : Nat) (fd : Int) (offset : Nat)
  | munmap (start : Nat) (length : Nat)
  | close (fd : Int)
  | qbuf (fd : Int) (index : Nat)
  | dqbuf (fd : Int)
  | streamon (fd : Int)
  | streamoff (fd : Int)
  deriving DecidableEq, Repr

/-- Whether a call releases a resource: `munmap` or `close`. -/
def Call.isTeardown : Call → Bool
  | .munmap _ _ => true
  | .close _ => true
  | _ => false

/-- The history of the calls issued so far, most recent first. -/
abbrev World := List Call

/-- The operating system and the device, as seen by the session: the answer to
every call, which may depend on the history of calls before it.  For the
`ioctl` requests the answer is what `xioctl` returns, that is the first result
that is not an `EINTR` failure; `none` stands for the return value `-1` (for
`mmap`: `MAP_FAILED`), `some` carries what the call wrote back.  `memory` is
the content of the mapped regions, by address. -/
structure Device where
  stat : World → String → Option Nat
  open_ : World → String → Int
  querycap : World → Int → Option Nat
  s_fmt : World → Int → v4l2_format → Option v4l2_format
  s_parm : World → Int → v4l2_streamparm → Option v4l2_streamparm
  g_parm : World → Int → v4l2_streamparm → Option v4l2_streamparm
  reqbufs : World → Int → Nat → Option Nat
  querybuf : World → Int → Nat → Option (Nat × Nat)
  mmap : World → Nat → Int → Nat → Option Nat
  munmap : World → Nat → Nat → Int
  close : World → Int → Int
  qbuf : World → Int → Nat → Int
  dqbuf : World → Int → Option (Nat × Nat)
  streamon : World → Int → Int
  streamoff : World → Int → Int
  memory : World → Nat → Byte

/-- The method `enqueue_buffer` (lines 52-60). -/
def VideoCapture.enqueue_buffer (dev : Device) (self : VideoCapture) (index : Nat)
    (w : World) : Except CaptureError Unit × World :=
  if dev.qbuf w self.fd index = -1 then (.error .QueueFailed, .qbuf self.fd index :: w)
  else (.ok (), .qbuf self.fd index :: w)

/-- Lines 85-93: set the requested stream parameters, or read the current ones
when none are requested (`p == NULL`). -/
def negotiate_params (dev : Device) (fd : Int) (p : Option v4l2_streamparm) (w : World) :
    Except CaptureError v4l2_streamparm × World :=
  match p with
  | some params =>
    match dev.s_parm w fd params with
    | none => (.error .SetParamsFailed, .s_parm fd :: w)
    | some params => (.ok params, .s_parm fd :: w)
  | none =>
    match dev.g_parm w fd ⟨V4L2_BUF_TYPE_VIDEO_CAPTURE, 0, 0⟩ with
    | none => (.error .GetParamsFailed, .g_parm fd :: w)
    | some params => (.ok params, .g_parm fd :: w)

/-- Lines 95-101: raise `bytesperline` and `sizeimage` to the minimums
`width * 2` and `bytesperline * height`, computed in `unsigned int`. -/
def clamp_format (format : v4l2_format) : v4l2_format :=
  let min1 := (format.pix.width * 2) % 2 ^ 32
  let bytesperline := if format.pix.bytesperline < min1 then min1 else format.pix.bytesperline
  let min2 := (bytesperline * format.pix.height) % 2 ^ 32
  let sizeimage := if format.pix.sizeimage < min2 then min2 else format.pix.sizeimage
  { format with pix := { format.pix with bytesperline := bytesperline, sizeimage := sizeimage } }

/-- Lines 114-127: `for (size_t i = 0; i < req.count; i++)`, entered at `i`
with `remaining = req.count - i` rounds to go. -/
def map_buffers (dev : Device) (fd : Int) :
    Nat → Nat → List frame_buffer → World → Except CaptureError (List frame_buffer) × World
  | 0, _, buffers, w => (.ok buffers, w)
  | remaining + 1, i, buffers, w =>
    match dev.querybuf w fd i with
    | none => (.error .QueryBufferFailed, .querybuf fd i :: w)
    | some (offset, length) =>
      match dev.mmap (.querybuf fd i :: w) length fd offset with
      | none => (.error .MappingFailed, .mmap length fd offset :: .querybuf fd i :: w)
      | some start =>
        map_buffers dev fd remaining (i + 1) (buffers ++ [⟨start, length⟩])
          (.mmap length fd offset :: .querybuf fd i :: w)

/-- The constructor `VideoCapture::VideoCapture` (lines 63-128); the name
`VideoCapture` itself is taken by the structure.  An exception leaves no
object behind; the calls issued up to it remain in the history. -/
def VideoCapture.construct (dev : Device) (dev_name : String) (fmt : v4l2_format)
    (p : Option v4l2_streamparm) (w : World) : Except CaptureError VideoCapture × World :=
  match dev.stat w dev_name with
  | none => (.error .CannotIdentify, .stat dev_name :: w)
  | some st_mode =>
    if ¬ S_ISCHR st_mode then (.error .NotACharacterDevice, .stat dev_name :: w)
    else if dev.open_ (.stat dev_name :: w) dev_name = -1 then
      (.error .OpenFailed, .open_ dev_name :: .stat dev_name :: w)
    else
      let fd := dev.open_ (.stat dev_name :: w) dev_name
      let w2 : World := .open_ dev_name :: .stat dev_name :: w
      match dev.querycap w2 fd with
      | none => (.error .NotV4L2, .querycap fd :: w2)
      | some capabilities =>
        if capabilities &&& V4L2_CAP_VIDEO_CAPTURE = 0 then
          (.error .NotCapture, .querycap fd :: w2)
        else if capabilities &&& V4L2_CAP_STREAMING = 0 then
          (.error .NoStreaming, .querycap fd :: w2)
        else
          match dev.s_fmt (.querycap fd :: w2) fd fmt with
          | none => (.error .SetFormatFailed, .s_fmt fd :: .querycap fd :: w2)
          | some format =>
            match negotiate_params dev fd p (.s_fmt fd :: .querycap fd :: w2) with
            | (.error e, w5) => (.error e, w5)
            | (.ok params, w5) =>
              match dev.reqbufs w5 fd REQ_BUFFER_COUNT with
              | none => (.error .RequestBuffersFailed, .reqbufs fd REQ_BUFFER_COUNT :: w5)
              | some count =>
                if count < REQ_MIN_BUFFER_COUNT then
                  (.error .InsufficientBuffers, .reqbufs fd REQ_BUFFER_COUNT :: w5)
                else
                  match map_buffers dev fd count 0 [] (.reqbufs fd REQ_BUFFER_COUNT :: w5) with
                  | (.error e, w7) => (.error e, w7)
                  | (.ok buffers, w7) =>
                    (.ok { fd := fd, started := false, closed := false,
                           format := clamp_format format, params := params,
                           buffers := buffers }, w7)

/-- The method `read_frame` (lines 147-162).  The bounds test
`buf.index >= buffers.size()` is the failure of the lookup `buffers[buf.index]`. -/
def VideoCapture.read_frame (dev : Device) (self : VideoCapture) (w : World) :
    Except CaptureError (List Byte) × VideoCapture × World :=
  match dev.dqbuf w self.fd with
  | none => (.error .DequeueFailed, self, .dqbuf self.fd :: w)
  | some (index, bytesused) =>
    match self.buffers[index]? with
    | none => (.error .CorruptBufferIndex, self, .dqbuf self.fd :: w)
    | some buffer =>
      let result := (List.range bytesused).map
        (fun k => dev.memory (.dqbuf self.fd :: w) (buffer.start + k))
      match self.enqueue_buffer dev index (.dqbuf self.fd :: w) with
      | (.error e, w2) => (.error e, self, w2)
      | (.ok _, w2) => (.ok result, self, w2)

/-- Lines 167-168: `for (size_t i = 0; i < buffers.size(); i++) enqueue_buffer(i)`,
entered at `i` with `remaining` rounds to go. -/
def enqueue_all (dev : Device) (self : VideoCapture) :
    Nat → Nat → World → Except CaptureError Unit × World
  | 0, _, w => (.ok (), w)
  | remaining + 1, i, w =>
    match self.enqueue_buffer dev i w with
    | (.error e, w1) => (.error e, w1)
    | (.ok _, w1) => enqueue_all dev self remaining (i + 1) w1

/-- The method `start` (lines 163-173). -/
def VideoCapture.start (dev : Device) (self : VideoCapture) (w : World) :
    Except CaptureError Unit × VideoCapture × World :=
  if self.started then (.error .AlreadyStreaming, self, w)
  else
    match enqueue_all dev self self.buffers.length 0 w with
    | (.error e, w1) => (.error e, self, w1)
    | (.ok _, w1) =>
      if dev.streamon w1 self.fd = -1 then
        (.error .StreamStartFailed, self, .streamon self.fd :: w1)
      else (.ok (), { self with started := true }, .streamon self.fd :: w1)

/-- The method `stop` (lines 174-181). -/
def VideoCapture.stop (dev : Device) (self : VideoCapture) (w : World) :
    Except CaptureError Unit × VideoCapture × World :=
  if ¬ self.started then (.error .NotStreaming, self, w)
  else if dev.streamoff w self.fd = -1 then
    (.error .StreamStopFailed, self, .streamoff self.fd :: w)
  else (.ok (), { self with started := false }, .streamoff self.fd :: w)

/-- A device that answers every call with success: a character device opened
as descriptor 3, capture and streaming capable, taking the format as asked,
30 frames a second, two buffers of 4096 bytes mapped at `65536 + offset`, and
frames of two bytes of value 7 in buffer 0. -/
def ready_device : Device where
  stat := fun _ _ => some 0o020620
  open_ := fun _ _ => 3
  querycap := fun _ _ => some 0x04200001
  s_fmt := fun _ _ fmt => some fmt
  s_parm := fun _ _ p => some p
  g_parm := fun _ _ p => some { p with numerator := 1, denominator := 30 }
  reqbufs := fun _ _ count => some count
  querybuf := fun _ _ index => some (index * 4096, 4096)
  mmap := fun _ _ _ offset => some (65536 + offset)
  munmap := fun _ _ _ => 0
  close := fun _ _ => 0
  qbuf := fun _ _ _ => 0
  dqbuf := fun _ _ => some (0, 2)
  streamon := fun _ _ => 0
  streamoff := fun _ _ => 0
  memory := fun _ _ => 7

/-- The format request of `py_create_video_capture` for 640x480 (lines 201-208). -/
def vga_request : v4l2_format :=
  { buf_type := V4L2_BUF_TYPE_VIDEO_CAPTURE,
    pix := { width := 640, height := 480, pixelformat := 0, field := 1,
             bytesperline := 0, sizeimage := 0 } }

/-- The session `ready_device` yields when opened. -/
def ready_session : VideoCapture :=
  { fd := 3, started := false, closed := false,
    format := { buf_type := 1,
                pix := { width := 640, height := 480, pixelformat := 0, field := 1,
                         bytesperline := 1280, sizeimage := 614400 } },
    params := { buf_type := 1, numerator := 1, denominator := 30 },
    buffers := [⟨65536, 4096⟩, ⟨69632, 4096⟩] }

/-- The calls issued while `ready_session` was opened. -/
def ready_world : World :=
  [.mmap 4096 3 4096, .querybuf 3 1, .mmap 4096 3 0, .querybuf 3 0, .reqbufs 3 2, .g_parm 3,
   .s_fmt 3, .querycap 3, .open_ "/dev/video0", .stat "/dev/video0"]

/-- The outcome of `start()` on `ready_session`. -/
def after_start : Except CaptureError Unit × VideoCapture × World :=
  ready_session.start ready_device ready_world

/-- The outcome of `stop()` after that `start()`. -/
def after_stop : Except CaptureError Unit × VideoCapture × World :=
  after_start.2.1.stop ready_device after_start.2.2

/-- A device that reports a 40000x60000 format back and leaves `bytesperline`
and `sizeimage` at 0; every reported field fits 32 bits. -/
def large_device : Device :=
  { ready_device with
    s_fmt := fun _ _ fmt =>
      some { fmt with pix := { width := 40000, height := 60000,
                               pixelformat := fmt.pix.pixelformat, field := fmt.pix.field,
                               bytesperline := 0, sizeimage := 0 } } }

/-- The outcome of opening `large_device`. -/
def large_open : Except CaptureError VideoCapture × World :=
  VideoCapture.construct large_device "/dev/video0" vga_request none []

/-! ### Auxiliary definitions used to state the results -/

/-- The index of the alpha byte of the pixel starting at `offset`. -/
def alpha_index (alpha_front : Bool) (offset : Nat) : Nat :=
  if alpha_front then offset else offset + 3

/-- The index of colour byte `c` (0, 1 or 2) of the pixel starting at `offset`. -/
def colour_index (alpha_front : Bool) (offset c : Nat) : Nat :=
  if alpha_front then offset + 1 + c else offset + c

/-- The blend of line 58 as a function of the three bytes it reads: the alpha
byte `a` of the frame, the accumulated output byte `o`, the frame's colour
byte `f`. -/
def blend_byte (a o f : Byte) : Byte :=
  to_uint8 ((((255 - a.val % 2 ^ 16) % 2 ^ 16) * o.val + (a.val % 2 ^ 16) * f.val) / 255)

/-- The output byte at index `k` after the frames (numbered from `i`) have
been blended, in order, over the byte `acc`, for the pixel at `offset`. -/
def blend_frames (mem : Surroundings) (alpha_front : Bool) (offset k : Nat) :
    List (List Byte) → Nat → Byte → Byte
  | [], _, acc => acc
  | img :: rest, i, acc =>
    blend_frames mem alpha_front offset k rest (i + 1)
      (blend_byte (image_at mem i img (alpha_index alpha_front offset)) acc (image_at mem i img k))

/-- One compositing step as the specification words it, in exact natural
numbers: `(alpha_old * acc + alpha * v) / 255` with `alpha_old = 255 - alpha`. -/
def over_blend (acc a v : Nat) : Nat := ((255 - a) * acc + a * v) / 255

/-- The specification's value of a colour channel: the accumulator starts at 0
and every layer `(alpha, value)` is blended over it in list order. -/
def composite (layers : List (Nat × Nat)) : Nat :=
  layers.foldl (fun acc av => over_blend acc av.1 av.2) 0

/-- The history `w'` extends `w` by calls none of which is a `munmap` or a
`close`. -/
def NoTeardownSince (w w' : World) : Prop :=
  ∃ issued : List Call, w' = issued ++ w ∧ ∀ c ∈ issued, c.isTeardown = false

/-- Every access recorded so far has its byte index below `size`. -/
def TraceBelow (size : Nat) (st : MergeState) : Prop :=
  ∀ a ∈ st.trace, a.index < size

/-! ### The blend kernel -/

theorem range_three : List.range 3 = [0, 1, 2] := by decide

theorem frame_step_out (mem : Surroundings) (alpha_front : Bool) (offset i : Nat)
    (img : List Byte) (st : MergeState) (k : Nat) :
    (frame_step mem alpha_front offset i img st).out_data k =
      if colour_index alpha_front offset 0 ≤ k ∧ k < colour_index alpha_front offset 0 + 3 then
        blend_byte (image_at mem i img (alpha_index alpha_front offset)) (st.out_data k)
          (image_at mem i img k)
      else st.out_data k := by
  cases alpha_front <;>
    simp only [frame_step, ALPHA_PIXEL_SIZE, colour_index, alpha_index, range_three,
      List.foldl_cons, List.foldl_nil, channel_step, Function.update_apply, blend_byte,
      if_true, if_false, Bool.false_eq_true, Nat.add_zero, Nat.add_sub_cancel,
      show (4 : Nat) - 1 = 3 from rfl]
  · by_cases h0 : k = offset
    · subst h0; simp
    · by_cases h1 : k = offset + 1
      · subst h1; simp
      · by_cases h2 : k = offset + 2
        · subst h2; simp
        · have : ¬ (offset ≤ k ∧ k < offset + 3) := by omega
          simp [h0, h1, h2, this]
  · by_cases h0 : k = offset + 1
    · subst h0; simp
    · by_cases h1 : k = offset + 1 + 1
      · subst h1; simp
      · by_cases h2 : k = offset + 1 + 2
        · subst h2; simp
        · have : ¬ (offset + 1 ≤ k ∧ k < offset + 1 + 3) := by omega
          simp [h0, h1, h2, this]

theorem frame_loop_out (mem : Surroundings) (alpha_front : Bool) (offset : Nat)
    (images : List (List Byte)) (i : Nat) (st : MergeState) (k : Nat) :
    (frame_loop mem alpha_front offset images i st).out_data k =
      if colour_index alpha_front offset 0 ≤ k ∧ k < colour_index alpha_front offset 0 + 3 then
        blend_frames mem alpha_front offset k images i (st.out_data k)
      else st.out_data k := by
  induction images generalizing i st with
  | nil => simp [frame_loop, blend_frames]
  | cons img rest ih =>
    rw [frame_loop, ih, frame_step_out, blend_frames]
    split <;> rfl

theorem pixel_step_out (mem : Surroundings) (images : List (List Byte)) (alpha_front : Bool)
    (offset : Nat) (st : MergeState) (k : Nat) :
    (pixel_step mem images alpha_front offset st).out_data k =
      if k = alpha_index alpha_front offset then 255
      else if offset ≤ k ∧ k < offset + 4 then
        blend_frames mem alpha_front offset k images 0 (st.out_data k)
      else st.out_data k := by
  rw [pixel_step, frame_loop_out]
  cases alpha_front <;>
    simp only [colour_index, alpha_index, ALPHA_PIXEL_SIZE, Function.update_apply, if_true,
      if_false, Bool.false_eq_true, Nat.add_zero, Nat.add_sub_cancel,
      show offset + 4 - 1 = offset + 3 from rfl]
  · by_cases ha : k = offset + 3
    · have : ¬ (offset ≤ k ∧ k < offset + 3) := by omega
      simp [ha, this]
    · by_cases hr : offset ≤ k ∧ k < offset + 3
      · have : offset ≤ k ∧ k < offset + 4 := by omega
        simp [ha, hr, this]
      · have : ¬ (offset ≤ k ∧ k < offset + 4) := by omega
        simp [ha, hr, this]
  · by_cases ha : k = offset
    · have : ¬ (offset + 1 ≤ k ∧ k < offset + 1 + 3) := by omega
      simp [ha, this]
    · by_cases hr : offset + 1 ≤ k ∧ k < offset + 1 + 3
      · have : offset ≤ k ∧ k < offset + 4 := by omega
        simp [ha, hr, this]
      · have : ¬ (offset ≤ k ∧ k < offset + 4) := by omega
        simp [ha, hr, this]

/-! ### The loop over the pixels -/

theorem pixel_loop_below (mem : Surroundings) (images : List (List Byte)) (alpha_front : Bool)
    (size : Nat) (hsize : size ≤ PY_SSIZE_T_MAX) (fuel offset : Nat) (st : MergeState)
    (k : Nat) (hk : k < offset) :
    (pixel_loop mem images alpha_front size fuel offset st).out_data k = st.out_data k := by
  induction fuel generalizing offset st with
  | zero => rfl
  | succ fuel ih =>
    rw [pixel_loop]
    split
    · next hlt =>
      have hwrap : (offset + ALPHA_PIXEL_SIZE) % 2 ^ 64 = offset + 4 := by
        simp only [PY_SSIZE_T_MAX] at hsize
        simp only [ALPHA_PIXEL_SIZE]
        omega
      rw [hwrap, ih (offset + 4) _ (by omega), pixel_step_out]
      have h1 : k ≠ alpha_index alpha_front offset := by
        cases alpha_front <;> simp [alpha_index] <;> omega
      have h2 : ¬ (offset ≤ k ∧ k < offset + 4) := by omega
      simp [h1, h2]
    · rfl

/-- The loop runs to its end within the rounds it is given: once
`size ≤ offset + fuel`, more rounds change nothing. -/
theorem pixel_loop_fuel (mem : Surroundings) (images : List (List Byte)) (alpha_front : Bool)
    (size : Nat) (hsize : size ≤ PY_SSIZE_T_MAX) (fuel extra offset : Nat) (st : MergeState)
    (hfuel : size ≤ offset + fuel) :
    pixel_loop mem images alpha_front size (fuel + extra) offset st =
      pixel_loop mem images alpha_front size fuel offset st := by
  induction fuel generalizing offset st with
  | zero =>
    cases extra with
    | zero => rfl
    | succ e =>
      rw [Nat.zero_add, pixel_loop, pixel_loop]
      have : ¬ offset < size := by omega
      simp [this]
  | succ fuel ih =>
    rw [show fuel + 1 + extra = (fuel + extra) + 1 by omega, pixel_loop, pixel_loop]
    split
    · next hlt =>
      have hwrap : (offset + ALPHA_PIXEL_SIZE) % 2 ^ 64 = offset + 4 := by
        simp only [PY_SSIZE_T_MAX] at hsize
        simp only [ALPHA_PIXEL_SIZE]
        omega
      rw [hwrap]
      exact ih (offset + 4) _ (by omega)
    · rfl

/-- The bytes of the pixel starting at `q` after the loop: the alpha byte is
255, a colour byte is the blend of all frames over the byte found there. -/
theorem pixel_loop_at (mem : Surroundings) (images : List (List Byte)) (alpha_front : Bool)
    (size : Nat) (hsize : size ≤ PY_SSIZE_T_MAX) (q : Nat) (hq : q < size) (k : Nat)
    (hk1 : q ≤ k) (hk2 : k < q + 4) (fuel offset : Nat) (st : MergeState)
    (hoff : offset ≤ q) (hmod : offset % 4 = q % 4) (hfuel : size ≤ offset + fuel) :
    (pixel_loop mem images alpha_front size fuel offset st).out_data k =
      if k = alpha_index alpha_front q then 255
      else blend_frames mem alpha_front q k images 0 (st.out_data k) := by
  induction fuel generalizing offset st with
  | zero => omega
  | succ fuel ih =>
    have hlt : offset < size := by omega
    have hwrap : (offset + ALPHA_PIXEL_SIZE) % 2 ^ 64 = offset + 4 := by
      simp only [PY_SSIZE_T_MAX] at hsize
      simp only [ALPHA_PIXEL_SIZE]
      omega
    rw [pixel_loop, if_pos hlt, hwrap]
    by_cases hcase : offset = q
    · subst hcase
      rw [pixel_loop_below mem images alpha_front size hsize fuel (offset + 4) _ k hk2,
        pixel_step_out]
      simp [hk1, hk2]
    · rw [ih (offset + 4) _ (by omega) (by omega) (by omega), pixel_step_out]
      have h1 : k ≠ alpha_index alpha_front offset := by
        cases alpha_front <;> simp [alpha_index] <;> omega
      have h2 : ¬ (offset ≤ k ∧ k < offset + 4) := by omega
      simp [h1, h2]

/-! ### The common size -/

theorem foldl_min_le_init (ls : List (List Byte)) (init : Nat) :
    ls.foldl (fun sz v => min sz v.length) init ≤ init := by
  induction ls generalizing init with
  | nil => exact Nat.le_refl _
  | cons v rest ih =>
    rw [List.foldl_cons]
    exact Nat.le_trans (ih _) (Nat.min_le_left _ _)

theorem foldl_min_le_mem (ls : List (List Byte)) (init : Nat) (img : List Byte)
    (himg : img ∈ ls) : ls.foldl (fun sz v => min sz v.length) init ≤ img.length := by
  induction ls generalizing init with
  | nil => cases himg
  | cons v rest ih =>
    rw [List.foldl_cons]
    rcases List.mem_cons.mp himg with h | h
    · subst h
      exact Nat.le_trans (foldl_min_le_init _ _) (Nat.min_le_right _ _)
    · exact ih _ h

theorem le_foldl_min (ls : List (List Byte)) (init m : Nat) (hinit : m ≤ init)
    (hall : ∀ img ∈ ls, m ≤ img.length) : m ≤ ls.foldl (fun sz v => min sz v.length) init := by
  induction ls generalizing init with
  | nil => exact hinit
  | cons v rest ih =>
    rw [List.foldl_cons]
    exact ih _ (Nat.le_min.mpr ⟨hinit, hall v (List.mem_cons_self _ _)⟩)
      (fun img h => hall img (List.mem_cons_of_mem _ h))

theorem foldl_min_attained (ls : List (List Byte)) (init : Nat) :
    ls.foldl (fun sz v => min sz v.length) init = init ∨
      ∃ img ∈ ls, ls.foldl (fun sz v => min sz v.length) init = img.length := by
  induction ls generalizing init with
  | nil => exact Or.inl rfl
  | cons v rest ih =>
    rw [List.foldl_cons]
    rcases ih (min init v.length) with h | ⟨img, himg, h⟩
    · rcases Nat.le_total init v.length with hle | hle
      · left; rw [h]; exact Nat.min_eq_left hle
      · right; exact ⟨v, List.mem_cons_self _ _, by rw [h]; exact Nat.min_eq_right hle⟩
    · right; exact ⟨img, List.mem_cons_of_mem _ himg, h⟩

theorem image_size_le (images : List (List Byte)) (img : List Byte) (himg : img ∈ images) :
    image_size images ≤ img.length :=
  foldl_min_le_mem images SIZE_MAX img himg

theorem image_size_attained (images : List (List Byte)) (hne : images ≠ [])
    (hfit : ∀ img ∈ images, img.length ≤ PY_SSIZE_T_MAX) :
    ∃ img ∈ images, image_size images = img.length := by
  rcases foldl_min_attained images SIZE_MAX with h | h
  · obtain ⟨v, rest, rfl⟩ := List.exists_cons_of_ne_nil hne
    have h1 := image_size_le (v :: rest) v (List.mem_cons_self _ _)
    have h2 := hfit v (List.mem_cons_self _ _)
    rw [image_size, h] at h1
    simp only [SIZE_MAX, PY_SSIZE_T_MAX] at h1 h2
    omega
  · exact h

theorem image_size_fits (images : List (List Byte)) (hne : images ≠ [])
    (hfit : ∀ img ∈ images, img.length ≤ PY_SSIZE_T_MAX) :
    image_size images ≤ PY_SSIZE_T_MAX := by
  obtain ⟨img, himg, h⟩ := image_size_attained images hne hfit
  rw [h]
  exact hfit img himg

/-- The rounds `merge_run` gives the loop are enough: with any number of
further rounds the loop ends in the same state. -/
theorem merge_run_fuel (mem : Surroundings) (images : List (List Byte)) (alpha_front : Bool)
    (hne : images ≠ []) (hfit : ∀ img ∈ images, img.length ≤ PY_SSIZE_T_MAX) (extra : Nat)
    (st : MergeState) :
    pixel_loop mem images alpha_front (image_size images) (image_size images + extra) 0 st =
      pixel_loop mem images alpha_front (image_size images) (image_size images) 0 st :=
  pixel_loop_fuel mem images alpha_front (image_size images) (image_size_fits images hne hfit)
    (image_size images) extra 0 st (by omega)

/-! ### The accesses -/

theorem frame_step_trace (mem : Surroundings) (alpha_front : Bool) (offset i : Nat)
    (img : List Byte) (st : MergeState) :
    (frame_step mem alpha_front offset i img st).trace =
      st.trace ++ [Access.read_image i (alpha_index alpha_front offset)] ++
        [Access.read_out (colour_index alpha_front offset 0),
         Access.read_image i (colour_index alpha_front offset 0),
         Access.write_out (colour_index alpha_front offset 0)] ++
        [Access.read_out (colour_index alpha_front offset 1),
         Access.read_image i (colour_index alpha_front offset 1),
         Access.write_out (colour_index alpha_front offset 1)] ++
        [Access.read_out (colour_index alpha_front offset 2),
         Access.read_image i (colour_index alpha_front offset 2),
         Access.write_out (colour_index alpha_front offset 2)] := by
  cases alpha_front <;> rfl

theorem frame_step_trace_below (mem : Surroundings) (alpha_front : Bool) (offset i : Nat)
    (img : List Byte) (st : MergeState) (size : Nat) (hoff : offset + 4 ≤ size)
    (hst : TraceBelow size st) : TraceBelow size (frame_step mem alpha_front offset i img st) := by
  intro a ha
  rw [frame_step_trace] at ha
  have hA : alpha_index alpha_front offset < size := by
    unfold alpha_index
    split <;> omega
  have hC : ∀ c, c < 3 → colour_index alpha_front offset c < size := by
    intro c hc
    unfold colour_index
    split <;> omega
  have h0 := hC 0 (by omega)
  have h1 := hC 1 (by omega)
  have h2 := hC 2 (by omega)
  simp only [List.mem_append, List.mem_cons, List.mem_singleton, List.not_mem_nil,
    or_false] at ha
  rcases ha with (((ha | ha) | ha) | ha) | ha
  · exact hst a ha
  · subst ha; exact hA
  · rcases ha with ha | ha | ha <;> (subst ha; exact h0)
  · rcases ha with ha | ha | ha <;> (subst ha; exact h1)
  · rcases ha with ha | ha | ha <;> (subst ha; exact h2)

theorem frame_loop_trace_below (mem : Surroundings) (alpha_front : Bool) (offset : Nat)
    (images : List (List Byte)) (i : Nat) (st : MergeState) (size : Nat)
    (hoff : offset + 4 ≤ size) (hst : TraceBelow size st) :
    TraceBelow size (frame_loop mem alpha_front offset images i st) := by
  induction images generalizing i st with
  | nil => exact hst
  | cons img rest ih =>
    rw [frame_loop]
    exact ih _ _ (frame_step_trace_below mem alpha_front offset i img st size hoff hst)

theorem pixel_step_trace_below (mem : Surroundings) (images : List (List Byte))
    (alpha_front : Bool) (offset : Nat) (st : MergeState) (size : Nat)
    (hoff : offset + 4 ≤ size) (hst : TraceBelow size st) :
    TraceBelow size (pixel_step mem images alpha_front offset st) := by
  rw [pixel_step]
  apply frame_loop_trace_below _ _ _ _ _ _ _ hoff
  intro a ha
  simp only [List.mem_append, List.mem_singleton] at ha
  rcases ha with ha | ha
  · exact hst a ha
  · subst ha
    cases alpha_front <;> simp only [Access.index, ALPHA_PIXEL_SIZE, if_true, if_false,
      Bool.false_eq_true] <;> omega

theorem pixel_loop_trace_below (mem : Surroundings) (images : List (List Byte))
    (alpha_front : Bool) (size : Nat) (hsize : size ≤ PY_SSIZE_T_MAX) (h4 : size % 4 = 0)
    (fuel offset : Nat) (st : MergeState) (hoff : offset % 4 = 0) (hst : TraceBelow size st) :
    TraceBelow size (pixel_loop mem images alpha_front size fuel offset st) := by
  induction fuel generalizing offset st with
  | zero => exact hst
  | succ fuel ih =>
    rw [pixel_loop]
    split
    · next hlt =>
      have hwrap : (offset + ALPHA_PIXEL_SIZE) % 2 ^ 64 = offset + 4 := by
        simp only [PY_SSIZE_T_MAX] at hsize
        simp only [ALPHA_PIXEL_SIZE]
        omega
      rw [hwrap]
      exact ih (offset + 4) _ (by omega)
        (pixel_step_trace_below mem images alpha_front offset st size (by omega) hst)
    · exact hst

/-- When the common size is a multiple of 4, every access of `merge_images`
stays below it. -/
theorem merge_accesses_below (mem : Surroundings) (images : List (List Byte))
    (alpha_front : Bool) (hne : images ≠ [])
    (hfit : ∀ img ∈ images, img.length ≤ PY_SSIZE_T_MAX) (h4 : image_size images % 4 = 0) :
    ∀ a ∈ merge_accesses mem images alpha_front, a.index < image_size images := by
  apply pixel_loop_trace_below mem images alpha_front (image_size images)
    (image_size_fits images hne hfit) h4 _ 0 _ rfl
  intro a ha
  cases ha

/-! ### Exactness of the blend -/

theorem image_at_inside (mem : Surroundings) (i : Nat) (img : List Byte) (k : Nat)
    (hk : k < img.length) : image_at mem i img k = img.getD k 0 := by
  rw [image_at, List.getD_eq_getElem _ _ hk, List.getD_eq_getElem _ _ hk]

/-- The blend of line 58 never wraps: the byte stored is the exact quotient. -/
theorem blend_byte_val (a o f : Byte) :
    (blend_byte a o f).val = over_blend o.val a.val f.val := by
  have ha := a.isLt
  have ho := o.isLt
  have hf := f.isLt
  have h1 : (255 - a.val) * o.val ≤ (255 - a.val) * 255 := Nat.mul_le_mul_left _ (by omega)
  have h2 : a.val * f.val ≤ a.val * 255 := Nat.mul_le_mul_left _ (by omega)
  have h3 : (255 - a.val) * 255 + a.val * 255 = 255 * 255 := by omega
  have h4 : ((255 - a.val) * o.val + a.val * f.val) / 255 < 256 := by
    apply Nat.div_lt_of_lt_mul
    omega
  have e1 : a.val % 2 ^ 16 = a.val := Nat.mod_eq_of_lt (by omega)
  have e2 : (255 - a.val) % 2 ^ 16 = 255 - a.val := Nat.mod_eq_of_lt (by omega)
  simp only [blend_byte, to_uint8, over_blend, e1, e2]
  exact Nat.mod_eq_of_lt h4

theorem blend_frames_val (mem : Surroundings) (alpha_front : Bool) (offset k : Nat)
    (images : List (List Byte)) (i : Nat) (acc : Byte)
    (hin : ∀ img ∈ images, alpha_index alpha_front offset < img.length ∧ k < img.length) :
    (blend_frames mem alpha_front offset k images i acc).val =
      (images.map (fun img =>
        ((img.getD (alpha_index alpha_front offset) 0).val, (img.getD k 0).val))).foldl
        (fun acc av => over_blend acc av.1 av.2) acc.val := by
  induction images generalizing i acc with
  | nil => rfl
  | cons img rest ih =>
    have h := hin img (List.mem_cons_self _ _)
    rw [blend_frames, ih _ _ (fun x hx => hin x (List.mem_cons_of_mem _ hx)),
      List.map_cons, List.foldl_cons, blend_byte_val,
      image_at_inside mem i img _ h.1, image_at_inside mem i img _ h.2]

/-! ### The result of `merge_images` -/

theorem merge_images_ok (mem : Surroundings) (images : List (List Byte)) (alpha_front : Bool)
    (hne : images ≠ []) :
    merge_images mem images alpha_front =
      .ok ((List.range (image_size images)).map (merge_run mem images alpha_front).out_data) := by
  have : images.length ≠ 0 := fun h => hne (List.length_eq_zero.mp h)
  simp [merge_images, this]

/-- The byte `merge_images` leaves at an index `k` inside the output, `q` being
the start of the pixel `k` belongs to. -/
theorem merge_run_at (mem : Surroundings) (images : List (List Byte)) (alpha_front : Bool)
    (hne : images ≠ []) (hfit : ∀ img ∈ images, img.length ≤ PY_SSIZE_T_MAX)
    (q k : Nat) (hq : q % 4 = 0) (hk1 : q ≤ k) (hk2 : k < q + 4) (hk : k < image_size images) :
    (merge_run mem images alpha_front).out_data k =
      if k = alpha_index alpha_front q then 255
      else blend_frames mem alpha_front q k images 0 0 := by
  rw [merge_run, pixel_loop_at mem images alpha_front (image_size images)
    (image_size_fits images hne hfit) q (by omega) k hk1 hk2 _ 0 _ (by omega) (by omega)
    (by omega)]
  simp [hk]

theorem merge_images_get (mem : Surroundings) (images : List (List Byte)) (alpha_front : Bool)
    (hne : images ≠ []) (out : List Byte) (hout : merge_images mem images alpha_front = .ok out)
    (k : Nat) (hk : k < image_size images) :
    out[k]? = some ((merge_run mem images alpha_front).out_data k) := by
  rw [merge_images_ok mem images alpha_front hne] at hout
  injection hout with hout
  subst hout
  rw [List.getElem?_map, List.getElem?_range hk]
  rfl

theorem image_size_single (frame : List Byte) (hfit : frame.length ≤ PY_SSIZE_T_MAX) :
    image_size [frame] = frame.length := by
  obtain ⟨img, himg, h⟩ := image_size_attained [frame] (by simp)
    (fun img himg => by rw [List.mem_singleton.mp himg]; exact hfit)
  rw [h, List.mem_singleton.mp himg]

theorem image_size_pair (frameA frameB : List Byte) (hlen : frameA.length = frameB.length)
    (hfit : frameB.length ≤ PY_SSIZE_T_MAX) : image_size [frameA, frameB] = frameB.length := by
  obtain ⟨img, himg, h⟩ := image_size_attained [frameA, frameB] (by simp)
    (fun img himg => by
      rcases List.mem_cons.mp himg with h | h
      · rw [h, hlen]; exact hfit
      · rw [List.mem_singleton.mp h]; exact hfit)
  rw [h]
  rcases List.mem_cons.mp himg with h | h
  · rw [h, hlen]
  · rw [List.mem_singleton.mp h]

/-- A fully opaque source replaces the accumulated byte. -/
theorem blend_byte_opaque (o f : Byte) : blend_byte 255 o f = f := by
  apply Fin.ext
  rw [blend_byte_val]
  show ((255 - 255) * o.val + 255 * f.val) / 255 = f.val
  rw [Nat.sub_self, Nat.zero_mul, Nat.zero_add]
  exact Nat.mul_div_cancel_left _ (by decide)

/-- A fully transparent source leaves a zero accumulator at zero. -/
theorem blend_byte_transparent (f : Byte) : blend_byte 0 0 f = 0 := by
  apply Fin.ext
  rw [blend_byte_val]
  show ((255 - 0) * 0 + 0 * f.val) / 255 = 0
  simp

/-- The start of the pixel an index belongs to. -/
theorem pixel_start_facts (k : Nat) :
    (4 * (k / 4)) % 4 = 0 ∧ 4 * (k / 4) ≤ k ∧ k < 4 * (k / 4) + 4 := by
  omega

/-! ### The constructor and `close_device`, path by path -/

/-- No path of `read_frame` raises `NotStreaming`. -/
theorem read_frame_never_not_streaming (dev : Device) (self : VideoCapture) (w : World) :
    (self.read_frame dev w).1 ≠ .error .NotStreaming := by
  unfold VideoCapture.read_frame VideoCapture.enqueue_buffer
  split
  · simp
  · split
    · simp
    · split_ifs <;> simp

/-- The outcome of `read_frame` does not depend on the flag `started`. -/
theorem read_frame_ignores_started (dev : Device) (self : VideoCapture) (w : World)
    (b : Bool) :
    ({ self with started := b }.read_frame dev w).1 = (self.read_frame dev w).1 := by
  unfold VideoCapture.read_frame VideoCapture.enqueue_buffer
  simp only []
  split
  · rfl
  · split
    · rfl
    · split_ifs <;> rfl

theorem NoTeardownSince.cons {w w' : World} (c : Call) (hc : c.isTeardown = false)
    (h : NoTeardownSince w w') : NoTeardownSince w (c :: w') := by
  obtain ⟨issued, rfl, hall⟩ := h
  refine ⟨c :: issued, rfl, ?_⟩
  intro x hx
  rcases List.mem_cons.mp hx with rfl | hx
  · exact hc
  · exact hall x hx

theorem clamp_format_bounds (format : v4l2_format) :
    (clamp_format format).pix.width = format.pix.width ∧
    (clamp_format format).pix.height = format.pix.height ∧
    ((clamp_format format).pix.width * 2) % 2 ^ 32 ≤ (clamp_format format).pix.bytesperline ∧
    ((clamp_format format).pix.bytesperline * (clamp_format format).pix.height) % 2 ^ 32
      ≤ (clamp_format format).pix.sizeimage := by
  refine ⟨rfl, rfl, ?_, ?_⟩
  · simp only [clamp_format]
    split_ifs <;> omega
  · simp only [clamp_format]
    split_ifs <;> omega

theorem construct_ok_format (dev : Device) (dev_name : String) (fmt : v4l2_format)
    (p : Option v4l2_streamparm) (w : World) (self : VideoCapture) (w' : World)
    (h : VideoCapture.construct dev dev_name fmt p w = (.ok self, w')) :
    ∃ format, self.format = clamp_format format := by
  unfold VideoCapture.construct at h
  split at h
  · cases h
  split at h
  · cases h
  split at h
  · cases h
  simp only [] at h
  split at h
  · cases h
  split at h
  · cases h
  split at h
  · cases h
  split at h
  · cases h
  split at h
  · cases h
  split at h
  · cases h
  split at h
  · cases h
  split at h
  · cases h
  simp only [Prod.mk.injEq, Except.ok.injEq] at h
  exact ⟨_, by rw [← h.1]⟩

/-- C1: for a non-empty list of frames and a whole pixel `p` inside every frame
(hence inside the shortest), `merge_images` returns a buffer whose alpha byte
of pixel `p` is 255 and whose colour byte `c` of pixel `p` is the exact
iterated blend `composite` of the frames' (alpha, colour) pairs, taken in list
order from an accumulator 0.  The blend is stated in natural numbers, so the
equality also says that no step wraps. -/
theorem merge_images_pixel (mem : Surroundings) (images : List (List Byte))
    (alpha_front : Bool) (p c : Nat) (hne : images ≠ [])
    (hfit : ∀ img ∈ images, img.length ≤ PY_SSIZE_T_MAX)
    (hin : ∀ img ∈ images, 4 * p + 4 ≤ img.length) (hc : c < 3) :
    ∃ out, merge_images mem images alpha_front = .ok out ∧
      out[alpha_index alpha_front (4 * p)]? = some 255 ∧
      (out[colour_index alpha_front (4 * p) c]?).map Fin.val =
        some (composite (images.map (fun img =>
          ((img.getD (alpha_index alpha_front (4 * p)) 0).val,
           (img.getD (colour_index alpha_front (4 * p) c) 0).val)))) := by
  refine ⟨_, merge_images_ok mem images alpha_front hne, ?_, ?_⟩
  all_goals
    have hsize : 4 * p + 4 ≤ image_size images := by
      obtain ⟨img, himg, h⟩ := image_size_attained images hne hfit
      rw [h]
      exact hin img himg
  · have ha : alpha_index alpha_front (4 * p) < image_size images := by
      cases alpha_front <;> simp [alpha_index] <;> omega
    have ha1 : 4 * p ≤ alpha_index alpha_front (4 * p) := by
      cases alpha_front <;> simp [alpha_index]
    have ha2 : alpha_index alpha_front (4 * p) < 4 * p + 4 := by
      cases alpha_front <;> simp [alpha_index]
    rw [merge_images_get mem images alpha_front hne _
      (merge_images_ok mem images alpha_front hne) _ ha,
      merge_run_at mem images alpha_front hne hfit (4 * p) _ (by omega) ha1 ha2 ha]
    simp
  · have hk : colour_index alpha_front (4 * p) c < image_size images := by
      cases alpha_front <;> simp [colour_index] <;> omega
    have hk1 : 4 * p ≤ colour_index alpha_front (4 * p) c := by
      unfold colour_index
      split <;> omega
    have hk2 : colour_index alpha_front (4 * p) c < 4 * p + 4 := by
      cases alpha_front <;> simp [colour_index] <;> omega
    have hk3 : colour_index alpha_front (4 * p) c ≠ alpha_index alpha_front (4 * p) := by
      cases alpha_front <;> simp [colour_index, alpha_index] <;> omega
    rw [merge_images_get mem images alpha_front hne _
      (merge_images_ok mem images alpha_front hne) _ hk,
      merge_run_at mem images alpha_front hne hfit (4 * p) _ (by omega) hk1 hk2 hk,
      if_neg hk3, Option.map_some', composite]
    congr 1
    apply blend_frames_val
    intro img himg
    have := hin img himg
    constructor
    · cases alpha_front <;> simp [alpha_index] <;> omega
    · omega

/-- C1, at the specification's example: one frame whose pixel has alpha 128 and
colour bytes 200 gives colour bytes `floor(128 * 200 / 255) = 100` and alpha
255. -/
theorem merge_images_pixel_witness :
    (([[128, 200, 200, 200]] : List (List Byte)) ≠ []) ∧
    (∀ img ∈ ([[128, 200, 200, 200]] : List (List Byte)), img.length ≤ PY_SSIZE_T_MAX) ∧
    (∀ img ∈ ([[128, 200, 200, 200]] : List (List Byte)), 4 * 0 + 4 ≤ img.length) ∧
    ∃ out, merge_images zero_mem [[128, 200, 200, 200]] true = .ok out ∧
      out[alpha_index true (4 * 0)]? = some 255 ∧
      (out[colour_index true (4 * 0) 1]?).map Fin.val =
        some (composite (([[128, 200, 200, 200]] : List (List Byte)).map (fun img =>
          ((img.getD (alpha_index true (4 * 0)) 0).val,
           (img.getD (colour_index true (4 * 0) 1) 0).val)))) ∧
      composite (([[128, 200, 200, 200]] : List (List Byte)).map (fun img =>
          ((img.getD (alpha_index true (4 * 0)) 0).val,
           (img.getD (colour_index true (4 * 0) 1) 0).val))) = 100 := by
  refine ⟨by decide, by decide, by decide, ?_⟩
  obtain ⟨out, h1, h2, h3⟩ := merge_images_pixel zero_mem [[128, 200, 200, 200]] true 0 1
    (by decide) (by decide) (by decide) (by decide)
  exact ⟨out, h1, h2, h3, by decide⟩

/-- C5: on an empty list of frames `merge_images` stops at its
`assert(image_count > 0)`, reported as `EmptyFrameSet`, for either value of
`alpha_front`; no buffer is returned. -/
theorem merge_images_empty (mem : Surroundings) (alpha_front : Bool) :
    merge_images mem [] alpha_front = .error .EmptyFrameSet ∧
      ∀ out, merge_images mem [] alpha_front ≠ .ok out := by
  constructor
  · rfl
  · intro out h
    cases h

/-- C6: for a non-empty list of frames the buffer returned by `merge_images`
has the minimum of the frames' lengths as its length. -/
theorem merge_images_length (mem : Surroundings) (images : List (List Byte))
    (alpha_front : Bool) (hne : images ≠ [])
    (hfit : ∀ img ∈ images, img.length ≤ PY_SSIZE_T_MAX) :
    ∃ out, merge_images mem images alpha_front = .ok out ∧
      (images.map List.length).min? = some out.length := by
  refine ⟨_, merge_images_ok mem images alpha_front hne, ?_⟩
  rw [List.length_map, List.length_range, List.min?_eq_some_iff']
  constructor
  · obtain ⟨img, himg, h⟩ := image_size_attained images hne hfit
    rw [h]
    exact List.mem_map_of_mem _ himg
  · intro b hb
    obtain ⟨img, himg, rfl⟩ := List.mem_map.mp hb
    exact image_size_le images img himg

/-- C6, at the specification's example: frames of 8 and 12 bytes give exactly
8 bytes. -/
theorem merge_images_length_witness :
    (([List.replicate 8 7, List.replicate 12 9] : List (List Byte)) ≠ []) ∧
    (∀ img ∈ ([List.replicate 8 7, List.replicate 12 9] : List (List Byte)),
      img.length ≤ PY_SSIZE_T_MAX) ∧
    ∃ out, merge_images zero_mem [List.replicate 8 7, List.replicate 12 9] false = .ok out ∧
      (([List.replicate 8 7, List.replicate 12 9] : List (List Byte)).map List.length).min?
        = some out.length ∧
      (([List.replicate 8 7, List.replicate 12 9] : List (List Byte)).map List.length).min?
        = some 8 := by
  refine ⟨by decide, by decide, ?_⟩
  obtain ⟨out, h1, h2⟩ := merge_images_length zero_mem
    [List.replicate 8 7, List.replicate 12 9] false (by decide) (by decide)
  exact ⟨out, h1, h2, by decide⟩

/-- C8: a single frame whose length is a multiple of 4 and whose alpha byte
(at the position selected by `alpha_front`) is 255 at every pixel is returned
unchanged by `merge_images`: colour bytes are copied, alpha bytes are 255. -/
theorem merge_images_opaque_single (mem : Surroundings) (frameA : List Byte)
    (alpha_front : Bool) (hlen : frameA.length % 4 = 0)
    (hfit : frameA.length ≤ PY_SSIZE_T_MAX)
    (halpha : ∀ p, 4 * p < frameA.length →
      frameA.getD (alpha_index alpha_front (4 * p)) 0 = 255) :
    merge_images mem [frameA] alpha_front = .ok frameA := by
  have hne : [frameA] ≠ [] := by simp
  have hfit1 : ∀ img ∈ [frameA], img.length ≤ PY_SSIZE_T_MAX :=
    fun img himg => by rw [List.mem_singleton.mp himg]; exact hfit
  have hsize := image_size_single frameA hfit
  rw [merge_images_ok mem [frameA] alpha_front hne]
  congr 1
  apply List.ext_getElem?
  intro k
  by_cases hk : k < frameA.length
  · obtain ⟨hq, hk1, hk2⟩ := pixel_start_facts k
    have hq4 : 4 * (k / 4) + 4 ≤ frameA.length := by omega
    have ha : alpha_index alpha_front (4 * (k / 4)) < frameA.length := by
      unfold alpha_index
      split <;> omega
    have hA := halpha (k / 4) (by omega)
    rw [List.getElem?_map, List.getElem?_range (by rw [hsize]; exact hk),
      List.getElem?_eq_getElem hk, Option.map_some',
      merge_run_at mem [frameA] alpha_front hne hfit1 (4 * (k / 4)) k hq hk1 hk2
        (by rw [hsize]; exact hk)]
    congr 1
    split
    · next heq =>
      rw [← heq] at hA
      rw [← List.getD_eq_getElem frameA 0 hk, hA]
    · rw [blend_frames, blend_frames, image_at_inside mem 0 frameA _ ha, hA,
        blend_byte_opaque, image_at_inside mem 0 frameA _ hk, List.getD_eq_getElem _ _ hk]
  · rw [List.getElem?_eq_none (by rw [List.length_map, List.length_range, hsize]; omega),
      List.getElem?_eq_none (by omega)]

/-- C8, on a two-pixel frame with the alpha byte last. -/
theorem merge_images_opaque_single_witness :
    (([10, 20, 30, 255, 40, 50, 60, 255] : List Byte).length % 4 = 0) ∧
    (([10, 20, 30, 255, 40, 50, 60, 255] : List Byte).length ≤ PY_SSIZE_T_MAX) ∧
    (∀ p, 4 * p < ([10, 20, 30, 255, 40, 50, 60, 255] : List Byte).length →
      ([10, 20, 30, 255, 40, 50, 60, 255] : List Byte).getD (alpha_index false (4 * p)) 0
        = 255) ∧
    merge_images zero_mem [[10, 20, 30, 255, 40, 50, 60, 255]] false
      = .ok [10, 20, 30, 255, 40, 50, 60, 255] := by
  have h : ∀ p, 4 * p < ([10, 20, 30, 255, 40, 50, 60, 255] : List Byte).length →
      ([10, 20, 30, 255, 40, 50, 60, 255] : List Byte).getD (alpha_index false (4 * p)) 0
        = 255 := by
    intro p hp
    have hp2 : p = 0 ∨ p = 1 := by
      simp only [List.length_cons, List.length_nil] at hp
      omega
    rcases hp2 with rfl | rfl <;> rfl
  exact ⟨by decide, by decide, h,
    merge_images_opaque_single zero_mem [10, 20, 30, 255, 40, 50, 60, 255] false
      (by decide) (by decide) h⟩

/-- C9: with the alpha byte first, two frames of the same length (a multiple
of 4) of which the first has alpha 0 at every pixel merge to exactly the buffer
the second frame alone merges to. -/
theorem merge_images_transparent_first (mem : Surroundings) (frameA frameB : List Byte)
    (hsame : frameA.length = frameB.length) (hlen : frameB.length % 4 = 0)
    (hfit : frameB.length ≤ PY_SSIZE_T_MAX)
    (halpha : ∀ p, 4 * p < frameA.length → frameA.getD (4 * p) 0 = 0) :
    merge_images mem [frameA, frameB] true = merge_images mem [frameB] true := by
  have hne2 : [frameA, frameB] ≠ [] := by simp
  have hne1 : [frameB] ≠ [] := by simp
  have hfit1 : ∀ img ∈ [frameB], img.length ≤ PY_SSIZE_T_MAX :=
    fun img himg => by rw [List.mem_singleton.mp himg]; exact hfit
  have hfit2 : ∀ img ∈ [frameA, frameB], img.length ≤ PY_SSIZE_T_MAX := by
    intro img himg
    rcases List.mem_cons.mp himg with h | h
    · rw [h, hsame]; exact hfit
    · rw [List.mem_singleton.mp h]; exact hfit
  have hsize1 := image_size_single frameB hfit
  have hsize2 := image_size_pair frameA frameB hsame hfit
  rw [merge_images_ok mem _ true hne2, merge_images_ok mem _ true hne1, hsize1, hsize2]
  congr 1
  apply List.map_congr_left
  intro k hk
  have hk : k < frameB.length := List.mem_range.mp hk
  obtain ⟨hq, hk1, hk2⟩ := pixel_start_facts k
  have hqB : 4 * (k / 4) < frameB.length := by omega
  have hqA : 4 * (k / 4) < frameA.length := by omega
  have hA := halpha (k / 4) hqA
  rw [merge_run_at mem _ true hne2 hfit2 (4 * (k / 4)) k hq hk1 hk2 (by rw [hsize2]; exact hk),
    merge_run_at mem _ true hne1 hfit1 (4 * (k / 4)) k hq hk1 hk2 (by rw [hsize1]; exact hk)]
  split
  · rfl
  · have e : alpha_index true (4 * (k / 4)) = 4 * (k / 4) := rfl
    simp only [blend_frames, e]
    rw [image_at_inside mem 0 frameA _ hqA, hA, blend_byte_transparent,
      image_at_inside mem 1 frameB _ hqB, image_at_inside mem 1 frameB _ hk,
      image_at_inside mem 0 frameB _ hqB, image_at_inside mem 0 frameB _ hk]

/-- C9, on a one-pixel transparent frame over a one-pixel frame. -/
theorem merge_images_transparent_first_witness :
    (([0, 11, 12, 13] : List Byte).length = ([128, 200, 100, 50] : List Byte).length) ∧
    (([128, 200, 100, 50] : List Byte).length % 4 = 0) ∧
    (([128, 200, 100, 50] : List Byte).length ≤ PY_SSIZE_T_MAX) ∧
    (∀ p, 4 * p < ([0, 11, 12, 13] : List Byte).length →
      ([0, 11, 12, 13] : List Byte).getD (4 * p) 0 = 0) ∧
    merge_images zero_mem [[0, 11, 12, 13], [128, 200, 100, 50]] true
      = merge_images zero_mem [[128, 200, 100, 50]] true := by
  have h : ∀ p, 4 * p < ([0, 11, 12, 13] : List Byte).length →
      ([0, 11, 12, 13] : List Byte).getD (4 * p) 0 = 0 := by
    intro p hp
    have hp2 : p = 0 := by
      simp only [List.length_cons, List.length_nil] at hp
      omega
    subst hp2
    rfl
  exact ⟨by decide, by decide, by decide, h,
    merge_images_transparent_first zero_mem [0, 11, 12, 13] [128, 200, 100, 50]
      (by decide) (by decide) (by decide) h⟩

/-- C7: on one frame of 5 bytes (a shortest length that is not a multiple of 4)
with the alpha byte first, the loop enters a second round at offset 4 and there
reads `image_data[0][5..7]` and writes `out_data[5..7]`, all past the common
length 5; the partial pixel is processed and the accesses leave the buffers. -/
theorem merge_images_partial_pixel_accesses :
    image_size [[255, 1, 2, 3, 255]] = 5 ∧
    Access.read_image 0 7 ∈ merge_accesses zero_mem [[255, 1, 2, 3, 255]] true ∧
    Access.write_out 7 ∈ merge_accesses zero_mem [[255, 1, 2, 3, 255]] true ∧
    ¬ ∀ a ∈ merge_accesses zero_mem [[255, 1, 2, 3, 255]] true,
      a.index < image_size [[255, 1, 2, 3, 255]] := by
  decide

/-! ## Properties of the capture session -/

/-- C2: `read_frame` does not look at the session state.  On the freshly
constructed `ready_session` (never started), and again after `start()` and
`stop()`, a device that answers the dequeue call makes `read_frame` return the
frame instead of failing with `NotStreaming`. -/
theorem read_frame_without_streaming :
    VideoCapture.construct ready_device "/dev/video0" vga_request none []
      = (.ok ready_session, ready_world) ∧
    ready_session.started = false ∧
    (ready_session.read_frame ready_device ready_world).1 = .ok [7, 7] ∧
    after_start.1 = .ok () ∧ after_start.2.1.started = true ∧
    after_stop.1 = .ok () ∧ after_stop.2.1.started = false ∧
    (after_stop.2.1.read_frame ready_device after_stop.2.2).1 = .ok [7, 7] := by
  decide

/-- C10, as stated, fails: for the 40000x60000 format of `large_device` the
construction succeeds and stores `bytesperline = 80000` and
`sizeimage = 505032704`, which is `80000 * 60000` reduced modulo `2 ^ 32` and
smaller than the product `bytesperline * height` taken in natural numbers. -/
theorem construct_large_format_wraps :
    (large_open.1.toOption.map (fun s => s.format.pix))
      = some { width := 40000, height := 60000, pixelformat := 0, field := 1,
               bytesperline := 80000, sizeimage := 505032704 } ∧
    (large_open.1.toOption.map (fun s =>
      decide (s.format.pix.sizeimage ≥ s.format.pix.bytesperline * s.format.pix.height)))
      = some false ∧
    ¬ (505032704 ≥ 80000 * 60000) := by
  decide

/-- C10 (amended): after a successful construction the stored format satisfies
`bytesperline ≥ (width * 2) mod 2^32` and
`sizeimage ≥ (bytesperline * height) mod 2^32`, the products being reduced as
`unsigned int`; hence whenever a product fits 32 bits the corresponding
inequality holds over the natural numbers. -/
theorem construct_format_clamped (dev : Device) (dev_name : String) (fmt : v4l2_format)
    (p : Option v4l2_streamparm) (w : World) (self : VideoCapture) (w' : World)
    (h : VideoCapture.construct dev dev_name fmt p w = (.ok self, w')) :
    (self.format.pix.width * 2) % 2 ^ 32 ≤ self.format.pix.bytesperline ∧
    (self.format.pix.bytesperline * self.format.pix.height) % 2 ^ 32
      ≤ self.format.pix.sizeimage ∧
    (self.format.pix.width * 2 < 2 ^ 32 →
      self.format.pix.width * 2 ≤ self.format.pix.bytesperline) ∧
    (self.format.pix.bytesperline * self.format.pix.height < 2 ^ 32 →
      self.format.pix.bytesperline * self.format.pix.height ≤ self.format.pix.sizeimage) := by
  obtain ⟨format, hf⟩ := construct_ok_format dev dev_name fmt p w self w' h
  obtain ⟨_, _, h1, h2⟩ := clamp_format_bounds format
  rw [← hf] at h1 h2
  refine ⟨h1, h2, ?_, ?_⟩
  · intro hlt
    rw [Nat.mod_eq_of_lt hlt] at h1
    exact h1
  · intro hlt
    rw [Nat.mod_eq_of_lt hlt] at h2
    exact h2

/-- C10 (amended), on `ready_device`: 640x480 is stored with
`bytesperline = 1280` and `sizeimage = 614400`. -/
theorem construct_format_clamped_witness :
    VideoCapture.construct ready_device "/dev/video0" vga_request none []
      = (.ok ready_session, ready_world) ∧
    ((ready_session.format.pix.width * 2) % 2 ^ 32 ≤ ready_session.format.pix.bytesperline ∧
    (ready_session.format.pix.bytesperline * ready_session.format.pix.height) % 2 ^ 32
      ≤ ready_session.format.pix.sizeimage ∧
    (ready_session.format.pix.width * 2 < 2 ^ 32 →
      ready_session.format.pix.width * 2 ≤ ready_session.format.pix.bytesperline) ∧
    (ready_session.format.pix.bytesperline * ready_session.format.pix.height < 2 ^ 32 →
      ready_session.format.pix.bytesperline * ready_session.format.pix.height
        ≤ ready_session.format.pix.sizeimage)) :=
  ⟨by decide,
   construct_format_clamped ready_device "/dev/video0" vga_request none [] ready_session
     ready_world (by decide)⟩

end Streamtasks
